import Mathlib

/-!
Shallow embedding of the shift-calendar application `src/app.py`.

The application keeps four Firestore collections, modelled here as the
fields of `AppState`:

* `v2_events`      — shift events, keyed by a document id;
* `v2_day_status`  — one document per calendar day holding an `isHeld` flag;
* `v2_month_locks` — one document per month holding an `isLocked` flag;
* `v2_bulletin_board` — board messages with a server timestamp.

Events store `date` / `month_id` as the strings the code builds with
`f"{year}-{month:02d}"` and `f"{month_id}-{day:02d}"`.  The `attribute` and
`minutes` fields may be absent on old documents, hence `Option`; every read
in the code uses `get('attribute', 'その他')` and
`get('minutes', MINUTES_PER_SHIFT)`, embedded as `eventAttr` / `eventMinutes`.
The `createdAt` and `uid` fields of an event never influence behaviour and
are omitted.  Timestamps are modelled as integer seconds.
-/

def MAX_SHIFTS_PER_DAY : Nat := 5

def MINUTES_PER_SHIFT : Nat := 50

/-- The keys of `USER_ATTRIBUTES` in `app.py`. -/
def USER_ATTRIBUTE_NAMES : List String :=
  ["PTA", "地域ボランティア（社会人）", "地域ボランティア（学生）", "その他"]

/-- A document of the `v2_events` collection.  The Python keyword clash
forces the field name `attr` for the `attribute` key. -/
structure Event where
  date : String
  month_id : String
  name : String
  attr : Option String
  minutes : Option Nat
deriving DecidableEq, Repr

/-- A document of the `v2_bulletin_board` collection. -/
structure BoardMessage where
  month_id : String
  name : String
  message : String
  timestamp : Int
deriving DecidableEq, Repr

/-- The mutable store: the four Firestore collections. -/
structure AppState where
  events : List (Nat × Event)
  dayStatus : List (String × Bool)
  monthLocks : List (String × Bool)
  board : List BoardMessage
deriving DecidableEq, Repr

def withEvents (s : AppState) (evs : List (Nat × Event)) : AppState :=
  ⟨evs, s.dayStatus, s.monthLocks, s.board⟩

def withDayStatus (s : AppState) (ds : List (String × Bool)) : AppState :=
  ⟨s.events, ds, s.monthLocks, s.board⟩

def withBoard (s : AppState) (b : List BoardMessage) : AppState :=
  ⟨s.events, s.dayStatus, s.monthLocks, b⟩

/-- `f"{n:02d}"`. -/
def pad2 (n : Nat) : String :=
  if n < 10 then "0" ++ toString n else toString n

/-- `month_id = f"{year}-{month:02d}"` (`show_calendar`). -/
def monthIdStr (year month : Nat) : String :=
  toString year ++ "-" ++ pad2 month

/-- `date_str = f"{month_id}-{day:02d}"` (`show_calendar`). -/
def dateStr (year month day : Nat) : String :=
  monthIdStr year month ++ "-" ++ pad2 day

/-- `day_status.get(date_str, {}).get('isHeld', False)`: a day absent from
the day-status collection counts as not held. -/
def isHeld (s : AppState) (date_str : String) : Bool :=
  (s.dayStatus.lookup date_str).getD false

/-- `month_lock_doc.exists and month_lock_doc.to_dict().get('isLocked', False)`:
an absent month-lock document counts as unlocked. -/
def isMonthLocked (s : AppState) (mid : String) : Bool :=
  (s.monthLocks.lookup mid).getD false

/-- `event.get('attribute', 'その他')`. -/
def eventAttr (e : Event) : String :=
  e.attr.getD "その他"

/-- `event.get('minutes', MINUTES_PER_SHIFT)`. -/
def eventMinutes (e : Event) : Nat :=
  e.minutes.getD MINUTES_PER_SHIFT

/-- `day_events = [data for data in events.values() if data.get('date') == date_str]`. -/
def dayEvents (s : AppState) (date_str : String) : List Event :=
  (s.events.map Prod.snd).filter (fun e => e.date == date_str)

/-- `is_full = len(day_events) >= MAX_SHIFTS_PER_DAY`. -/
def isFull (s : AppState) (date_str : String) : Bool :=
  decide (MAX_SHIFTS_PER_DAY ≤ (dayEvents s date_str).length)

/-- The event document written by the self-service "シフトに入る" button. -/
def selfShiftEvent (year month day : Nat) (userName userAttr : String) : Event :=
  ⟨dateStr year month day, monthIdStr year month, userName, some userAttr,
    some MINUTES_PER_SHIFT⟩

/-- The event document written by the admin "追加" form; it has the same
shape as the self-service one. -/
def adminShiftEvent (year month day : Nat) (adminName adminAttr : String) : Event :=
  selfShiftEvent year month day adminName adminAttr

/-- The non-admin "シフトに入る" path of `show_calendar` (lines 263–297):
the button exists only under `is_held and not is_month_locked` and
`not is_full`; the handler then rejects a duplicate `(name, attribute)`
pair among the day's events and otherwise appends a new event document. -/
def addShiftSelf (s : AppState) (year month day : Nat)
    (userName userAttr : String) (newId : Nat) : AppState :=
  let mid := monthIdStr year month
  let ds := dateStr year month day
  if isHeld s ds && !(isMonthLocked s mid) then
    if !(isFull s ds) then
      if (dayEvents s ds).any
          (fun e => e.name == userName && eventAttr e == userAttr) then
        s
      else
        withEvents s (s.events ++ [(newId, selfShiftEvent year month day userName userAttr)])
    else s
  else s

/-- The admin "代理入力 / 追加" form of `show_calendar` (lines 265–280):
same `is_held`, lock and capacity guards, a non-empty-name check, and no
duplicate check. -/
def addShiftAdmin (s : AppState) (year month day : Nat)
    (adminName adminAttr : String) (newId : Nat) : AppState :=
  let mid := monthIdStr year month
  let ds := dateStr year month day
  if isHeld s ds && !(isMonthLocked s mid) then
    if !(isFull s ds) then
      if adminName == "" then s
      else
        withEvents s (s.events ++ [(newId, adminShiftEvent year month day adminName adminAttr)])
    else s
  else s

/-- The admin per-event delete button (lines 248–250); it is only rendered
under `st.session_state.admin_mode and not is_month_locked` (line 233). -/
def deleteShiftAdmin (s : AppState) (mid : String) (docId : Nat) : AppState :=
  if !(isMonthLocked s mid) then
    withEvents s (s.events.filter (fun p => !(p.1 == docId)))
  else s

/-- The self-service delete button (lines 258–261); it is only rendered for
the user's own shift (`name` and displayed attribute both match) and when
the month is not locked. -/
def deleteShiftSelf (s : AppState) (mid : String) (docId : Nat)
    (userName userAttr : String) : AppState :=
  if !(isMonthLocked s mid) then
    withEvents s (s.events.filter
      (fun p => !(p.1 == docId && p.2.name == userName && eventAttr p.2 == userAttr)))
  else s

/-- The admin "⏱️" popover (lines 240–245), rendered only when
`admin_mode and not is_month_locked`; updates the `minutes` field of one
event document. -/
def setMinutesAdmin (s : AppState) (mid : String) (docId : Nat) (newMin : Nat) : AppState :=
  if !(isMonthLocked s mid) then
    withEvents s (s.events.map
      (fun p => if p.1 == docId then (p.1, ⟨p.2.date, p.2.month_id, p.2.name, p.2.attr, some newMin⟩) else p))
  else s

/-- Firestore `document(k).set(v)` on an association list. -/
def setAssocBool (l : List (String × Bool)) (k : String) (v : Bool) : List (String × Bool) :=
  (l.filter (fun p => !(p.1 == k))) ++ [(k, v)]

/-- The admin "開催" checkbox (lines 215–219): disabled while the month is
locked, and writing only when the value changed. -/
def setDayHeldAdmin (s : AppState) (year month day : Nat) (newVal : Bool) : AppState :=
  let mid := monthIdStr year month
  let ds := dateStr year month day
  if isMonthLocked s mid then s
  else if newVal != isHeld s ds then
    withDayStatus s (setAssocBool s.dayStatus ds newVal)
  else s

/-- The board form of `show_board_and_info` (lines 356–366): requires a
non-empty name and message, then appends the message — there is no
`is_month_locked` guard on this path. -/
def postBoardMessage (s : AppState) (mid userName msg : String) (ts : Int) : AppState :=
  if userName ≠ "" ∧ msg ≠ "" then
    withBoard s (s.board ++ [⟨mid, userName, msg, ts⟩])
  else s

/-- `timedelta(weeks=2)` in seconds. -/
def TWO_WEEKS_SECONDS : Int := 14 * 24 * 60 * 60

/-- `cleanup_old_board_messages` (lines 92–104): deletes every board message
whose `timestamp` is strictly below `now - timedelta(weeks=2)`. -/
def cleanupOldBoardMessages (s : AppState) (now : Int) : AppState :=
  withBoard s (s.board.filter (fun m => decide (¬ m.timestamp < now - TWO_WEEKS_SECONDS)))

/-!
Process model for the `__main__` block (lines 494–496): each script rerun
checks the `cleanup_done` one-shot flag, and only when it is absent runs
the sweep and sets the flag.  The flag lives in `st.session_state`, which
the hosting framework scopes to one browser session, not to the server
process: a process serves many sessions, and each session starts with a
fresh session state.  The model therefore keeps one flag per session id.
-/

/-- The server process: one `cleanup_done` flag per browser session (a
session id absent from `sessionDone` is a fresh session whose state does
not yet contain the key), the shared store, and `sweeps`, the number of
times the sweep has executed in this process. -/
structure ProcState where
  sessionDone : List (Nat × Bool)
  app : AppState
  sweeps : Nat
deriving Repr

/-- One script rerun of the `__main__` block issued by browser session
`sid`: `if 'cleanup_done' not in st.session_state` consults only that
session's state; when absent the sweep runs and the flag is set there. -/
def handleRequest (p : ProcState) (sid : Nat) (now : Int) : ProcState :=
  if (p.sessionDone.lookup sid).getD false then p
  else ⟨(sid, true) :: p.sessionDone, cleanupOldBoardMessages p.app now, p.sweeps + 1⟩

/-- A whole process lifetime: the requests it serves in order, each tagged
with the session that issued it and its time. -/
def runRequests (p : ProcState) (reqs : List (Nat × Int)) : ProcState :=
  reqs.foldl (fun q r => handleRequest q r.1 r.2) p

/-- A fresh process: no session has connected yet. -/
def initialProcState (app : AppState) : ProcState :=
  ⟨[], app, 0⟩

/-- Specification-side counter: how many of the listed requests are the
first request of their session, given the sessions already seen in `done`. -/
def firstRequestCount (done : List Nat) : List Nat → Nat
  | [] => 0
  | sid :: rest =>
    if sid ∈ done then firstRequestCount done rest
    else 1 + firstRequestCount (sid :: done) rest

/-!
Attendance aggregation, `show_activity_record` (lines 301–340).  The code
returns early (no table) when the month is not locked; otherwise it folds
the month's events into a dict keyed by `(name, attribute)` — skipping
events with a falsy name — summing `minutes`, and sorts the resulting rows
by 活動時間 descending, お名前 ascending (a stable lexicographic sort, as
`pandas.sort_values` on two columns is).
-/

/-- One row of the 活動実績 table. -/
structure Row where
  name : String
  attr : String
  total : Nat
deriving DecidableEq, Repr

/-- `user_data[key]['活動時間(分)'] += minutes`, with dict insertion order:
add `m` to the row keyed `(n, a)`, appending a fresh row when absent. -/
def updateRow : List Row → String → String → Nat → List Row
  | [], n, a, m => [⟨n, a, m⟩]
  | r :: rs, n, a, m =>
    if r.name = n ∧ r.attr = a then ⟨r.name, r.attr, r.total + m⟩ :: rs
    else r :: updateRow rs n a m

/-- One iteration of the dict-building loop of `show_activity_record`
(lines 317–329): events with a falsy name are skipped (`if name:`). -/
def activityStep (acc : List Row) (e : Event) : List Row :=
  if e.name = "" then acc
  else updateRow acc e.name (eventAttr e) (eventMinutes e)

/-- The dict-building loop of `show_activity_record` (lines 316–329). -/
def buildUserData (events : List Event) : List Row :=
  events.foldl activityStep []

/-- The sort key of `df.sort_values(by=['活動時間(分)', 'お名前'],
ascending=[False, True])`: total descending, name ascending on ties. -/
def rowLE (a b : Row) : Prop :=
  b.total < a.total ∨ (a.total = b.total ∧ a.name ≤ b.name)

instance : DecidableRel rowLE := fun a b =>
  inferInstanceAs (Decidable (b.total < a.total ∨ (a.total = b.total ∧ a.name ≤ b.name)))

instance : IsTotal Row rowLE := by
  constructor
  intro a b
  rcases Nat.lt_trichotomy a.total b.total with h | h | h
  · exact Or.inr (Or.inl h)
  · rcases le_total a.name b.name with hn | hn
    · exact Or.inl (Or.inr ⟨h, hn⟩)
    · exact Or.inr (Or.inr ⟨h.symm, hn⟩)
  · exact Or.inl (Or.inl h)

instance : IsTrans Row rowLE := by
  constructor
  intro a b c hab hbc
  rcases hab with h1 | ⟨h1, hn1⟩
  · rcases hbc with h2 | ⟨h2, _⟩
    · exact Or.inl (h2.trans h1)
    · exact Or.inl (h2 ▸ h1)
  · rcases hbc with h2 | ⟨h2, hn2⟩
    · exact Or.inl (h1 ▸ h2)
    · exact Or.inr ⟨h1.trans h2, hn1.trans hn2⟩

/-- `show_activity_record` as a function from the lock flag and the month's
events to the displayed rows: empty when the month is unlocked. -/
def showActivityRecord (is_month_locked : Bool) (events : List Event) : List Row :=
  if is_month_locked then List.insertionSort rowLE (buildUserData events)
  else []

/-- The `(お名前, 属性)` key of a row. -/
def rowKey (r : Row) : String × String :=
  (r.name, r.attr)

/-- The `(name, attribute-with-default)` key of an event. -/
def eventKey (e : Event) : String × String :=
  (e.name, eventAttr e)

/-- Total minutes the rows assign to one key. -/
def totalFor (rows : List Row) (k : String × String) : Nat :=
  ((rows.filter (fun r => decide (rowKey r = k))).map Row.total).sum

/-- Total minutes of the events carrying one key. -/
def sumMinutesFor (events : List Event) (k : String × String) : Nat :=
  ((events.filter (fun e => decide (eventKey e = k))).map eventMinutes).sum

/-!
CSV export, `generate_admin_csv` (lines 430–482).  The dataframe fill steps
operate column-wise: a wholly absent column is created with the default,
an existing column has its missing entries filled (`fillna`).  The pivot
has rows keyed `(お名前, 属性)` and columns keyed `(日, 曜日)`; since the
曜日 label is computed from the same date as 日, the columns are keyed by
the day of month here.  The trailing 合計(分) column is `pivot.sum(axis=1)`.
-/

/-- The `minutes` fill of lines 443–446: the column is created at
`MINUTES_PER_SHIFT` when absent from every document, else `fillna`. -/
def fillMinutesColumn (events : List Event) : List Event :=
  if events.all (fun e => e.minutes.isNone) then
    events.map (fun e => ⟨e.date, e.month_id, e.name, e.attr, some MINUTES_PER_SHIFT⟩)
  else
    events.map (fun e => ⟨e.date, e.month_id, e.name, e.attr, some (e.minutes.getD MINUTES_PER_SHIFT)⟩)

/-- The `attribute` fill of lines 449–452. -/
def fillAttrColumn (events : List Event) : List Event :=
  if events.all (fun e => e.attr.isNone) then
    events.map (fun e => ⟨e.date, e.month_id, e.name, some "その他", e.minutes⟩)
  else
    events.map (fun e => ⟨e.date, e.month_id, e.name, some (e.attr.getD "その他"), e.minutes⟩)

/-- Lines 443–452 in code order: minutes first, then attribute. -/
def csvPrepare (events : List Event) : List Event :=
  fillAttrColumn (fillMinutesColumn events)

/-- Per-event form of the same defaults. -/
def normalizeEvent (e : Event) : Event :=
  ⟨e.date, e.month_id, e.name, some (eventAttr e), some (eventMinutes e)⟩

/-- Numeric value of a decimal digit character. -/
def charDigit (c : Char) : Nat :=
  c.toNat - 48

/-- `pd.to_datetime(df['date']).dt.day` on a `YYYY-MM-DD` string: the value
of the two trailing day digits. -/
def dayOfDate (d : String) : Nat :=
  match d.data.reverse with
  | c1 :: c2 :: _ => 10 * charDigit c2 + charDigit c1
  | [c1] => charDigit c1
  | [] => 0

/-- The pivot row keys: the distinct `(お名前, 属性)` pairs of the data. -/
def csvKeys (events : List Event) : List (String × String) :=
  (events.map eventKey).dedup

/-- The pivot column keys: the distinct days, sorted ascending
(`pivot.sort_index(axis=1, level=0)`). -/
def csvDays (events : List Event) : List Nat :=
  List.insertionSort (fun a b => a ≤ b) ((events.map (fun e => dayOfDate e.date)).dedup)

/-- One pivot cell: summed minutes of one person on one day
(`aggfunc='sum', fill_value=0`). -/
def csvCell (events : List Event) (k : String × String) (day : Nat) : Nat :=
  ((events.filter
      (fun e => decide (eventKey e = k) && decide (dayOfDate e.date = day))).map
    eventMinutes).sum

/-- One row of the exported matrix, with the trailing 合計(分) column. -/
structure CsvRow where
  name : String
  attr : String
  cells : List Nat
  total : Nat
deriving DecidableEq, Repr

/-- The pivot of lines 465–471 over already-prepared data: the row total is
`pivot.sum(axis=1)`, the sum of the row's per-day cells. -/
def csvPivot (events : List Event) : List CsvRow :=
  (csvKeys events).map (fun k =>
    ⟨k.1, k.2, (csvDays events).map (csvCell events k),
      ((csvDays events).map (csvCell events k)).sum⟩)

/-- The whole export pipeline on a month's events. -/
def generateAdminCsv (events : List Event) : List CsvRow :=
  csvPivot (csvPrepare events)

/-!  Concrete states used by the closed theorems below. -/

/-- A state whose only content is a lock on month 2026-01. -/
def lockedDemoState : AppState :=
  ⟨[], [], [("2026-01", true)], []⟩

/-- 2026-01-05 is a held day in a locked month, with one shift present. -/
def lockedHeldDemoState : AppState :=
  ⟨[(1, ⟨"2026-01-05", "2026-01", "佐藤", some "PTA", some 50⟩)],
    [("2026-01-05", true)], [("2026-01", true)], []⟩

/-- An unlocked month with a held day and one existing shift by 佐藤. -/
def openDemoState : AppState :=
  ⟨[(1, ⟨"2026-01-05", "2026-01", "佐藤", some "PTA", some 50⟩)],
    [("2026-01-05", true)], [], []⟩

/-- A held day already carrying `MAX_SHIFTS_PER_DAY` shifts, month unlocked. -/
def fullDayDemoState : AppState :=
  ⟨[(1, ⟨"2026-01-05", "2026-01", "a", some "PTA", some 50⟩),
    (2, ⟨"2026-01-05", "2026-01", "b", some "PTA", some 50⟩),
    (3, ⟨"2026-01-05", "2026-01", "c", some "PTA", some 50⟩),
    (4, ⟨"2026-01-05", "2026-01", "d", some "PTA", some 50⟩),
    (5, ⟨"2026-01-05", "2026-01", "e", some "PTA", some 50⟩)],
    [("2026-01-05", true)], [], []⟩

/-- A board with one message posted at time 0, for the retention theorem. -/
def boardDemoState : AppState :=
  ⟨[], [], [], [⟨"2026-01", "佐藤", "連絡です", 0⟩]⟩

/-!  Theorems. -/

/-- C4: `show_activity_record` returns before building any table when the
month is not locked, so the attendance output is empty for an unlocked
month regardless of the events. -/
theorem activityRecord_empty_when_unlocked (events : List Event) :
    showActivityRecord false events = [] :=
  rfl

/-- C2: a day already holding `MAX_SHIFTS_PER_DAY` shift events accepts no
further shift: both the self-service add and the admin add leave the state
unchanged. -/
theorem addShift_rejected_when_full (s : AppState) (year month day : Nat)
    (n a n2 a2 : String) (id1 id2 : Nat)
    (hfull : MAX_SHIFTS_PER_DAY ≤ (dayEvents s (dateStr year month day)).length) :
    addShiftSelf s year month day n a id1 = s ∧
    addShiftAdmin s year month day n2 a2 id2 = s := by
  have h : isFull s (dateStr year month day) = true := by
    unfold isFull
    exact decide_eq_true hfull
  constructor
  · unfold addShiftSelf
    simp [h]
  · unfold addShiftAdmin
    simp [h]

theorem addShift_rejected_when_full_witness :
    MAX_SHIFTS_PER_DAY ≤ (dayEvents fullDayDemoState (dateStr 2026 1 5)).length ∧
    (addShiftSelf fullDayDemoState 2026 1 5 "f" "PTA" 9 = fullDayDemoState ∧
     addShiftAdmin fullDayDemoState 2026 1 5 "g" "PTA" 10 = fullDayDemoState) :=
  ⟨by decide,
   addShift_rejected_when_full fullDayDemoState 2026 1 5 "f" "PTA" "g" "PTA" 9 10 (by decide)⟩

/-- C3: a self-service add whose `(name, attribute)` pair already appears
among the day's events writes nothing, while the admin form performs no
duplicate check: under its guards it appends a second event with the same
`(date, name, attribute)`. -/
theorem addShift_duplicate_check (s : AppState) (year month day : Nat)
    (n a : String) (id1 id2 : Nat)
    (hdup : ∃ e ∈ dayEvents s (dateStr year month day), e.name = n ∧ eventAttr e = a) :
    addShiftSelf s year month day n a id1 = s ∧
    (isHeld s (dateStr year month day) = true →
     isMonthLocked s (monthIdStr year month) = false →
     isFull s (dateStr year month day) = false →
     n ≠ "" →
     (addShiftAdmin s year month day n a id2).events
       = s.events ++ [(id2, adminShiftEvent year month day n a)]) := by
  have hany : (dayEvents s (dateStr year month day)).any
      (fun e => e.name == n && eventAttr e == a) = true := by
    rcases hdup with ⟨e, he, hn, ha⟩
    exact List.any_eq_true.mpr ⟨e, he, by simp [hn, ha]⟩
  constructor
  · unfold addShiftSelf
    simp [hany]
  · intro hheld hlock hfull hname
    unfold addShiftAdmin
    simp [hheld, hlock, hfull, hname, withEvents]

theorem addShift_duplicate_check_witness :
    (∃ e ∈ dayEvents openDemoState (dateStr 2026 1 5), e.name = "佐藤" ∧ eventAttr e = "PTA") ∧
    (addShiftSelf openDemoState 2026 1 5 "佐藤" "PTA" 9 = openDemoState ∧
     (isHeld openDemoState (dateStr 2026 1 5) = true →
      isMonthLocked openDemoState (monthIdStr 2026 1) = false →
      isFull openDemoState (dateStr 2026 1 5) = false →
      "佐藤" ≠ "" →
      (addShiftAdmin openDemoState 2026 1 5 "佐藤" "PTA" 9).events
        = openDemoState.events ++ [(9, adminShiftEvent 2026 1 5 "佐藤" "PTA")])) :=
  ⟨by decide, addShift_duplicate_check openDemoState 2026 1 5 "佐藤" "PTA" 9 9 (by decide)⟩

/-- C10: the self-service join is only offered on a held day: when the
day's status is absent from the day-status collection or its `isHeld` flag
is false, the self-service add leaves the state unchanged. -/
theorem addShiftSelf_requires_held (s : AppState) (year month day : Nat)
    (n a : String) (newId : Nat)
    (h : s.dayStatus.lookup (dateStr year month day) = none ∨
         isHeld s (dateStr year month day) = false) :
    addShiftSelf s year month day n a newId = s := by
  have hh : isHeld s (dateStr year month day) = false := by
    rcases h with h | h
    · unfold isHeld
      rw [h]
      rfl
    · exact h
  unfold addShiftSelf
  simp [hh]

theorem addShiftSelf_requires_held_witness :
    (lockedDemoState.dayStatus.lookup (dateStr 2026 1 7) = none ∨
     isHeld lockedDemoState (dateStr 2026 1 7) = false) ∧
    addShiftSelf lockedDemoState 2026 1 7 "佐藤" "PTA" 1 = lockedDemoState :=
  ⟨by decide, addShiftSelf_requires_held lockedDemoState 2026 1 7 "佐藤" "PTA" 1 (by decide)⟩

/-- C6: when the retention sweep runs, a board message strictly older than
two weeks before `now` is deleted and any message two weeks old or newer is
retained. -/
theorem cleanup_retention_boundary (s : AppState) (now : Int) (m : BoardMessage)
    (hm : m ∈ s.board) :
    (m.timestamp < now - TWO_WEEKS_SECONDS →
      m ∉ (cleanupOldBoardMessages s now).board) ∧
    (now - TWO_WEEKS_SECONDS ≤ m.timestamp →
      m ∈ (cleanupOldBoardMessages s now).board) := by
  constructor
  · intro hold hmem
    have h2 := (List.mem_filter.mp hmem).2
    simp only [decide_eq_true_eq] at h2
    exact h2 hold
  · intro hnew
    refine List.mem_filter.mpr ⟨hm, ?_⟩
    simp only [decide_eq_true_eq]
    omega

theorem cleanup_retention_boundary_witness :
    (⟨"2026-01", "佐藤", "連絡です", 0⟩ : BoardMessage) ∈ boardDemoState.board ∧
    (((⟨"2026-01", "佐藤", "連絡です", 0⟩ : BoardMessage).timestamp
        < 2 * TWO_WEEKS_SECONDS - TWO_WEEKS_SECONDS →
      (⟨"2026-01", "佐藤", "連絡です", 0⟩ : BoardMessage)
        ∉ (cleanupOldBoardMessages boardDemoState (2 * TWO_WEEKS_SECONDS)).board) ∧
     (2 * TWO_WEEKS_SECONDS - TWO_WEEKS_SECONDS
        ≤ (⟨"2026-01", "佐藤", "連絡です", 0⟩ : BoardMessage).timestamp →
      (⟨"2026-01", "佐藤", "連絡です", 0⟩ : BoardMessage)
        ∈ (cleanupOldBoardMessages boardDemoState (2 * TWO_WEEKS_SECONDS)).board)) :=
  ⟨by decide,
   cleanup_retention_boundary boardDemoState (2 * TWO_WEEKS_SECONDS)
     ⟨"2026-01", "佐藤", "連絡です", 0⟩ (by decide)⟩

/-- C1: in a locked month the shift and day-status mutations are no-ops,
but the board form of `show_board_and_info` has no lock guard (the fetched
`is_month_locked` value is unused there), so posting a bulletin-board
message changes the stored state even though the month is locked —
contradicting the app's own banner that a locked month rejects board
writes. -/
theorem board_post_ignores_month_lock :
    isMonthLocked lockedDemoState "2026-01" = true ∧
    addShiftSelf lockedDemoState 2026 1 5 "佐藤" "PTA" 1 = lockedDemoState ∧
    addShiftAdmin lockedDemoState 2026 1 5 "佐藤" "PTA" 1 = lockedDemoState ∧
    deleteShiftAdmin lockedDemoState "2026-01" 1 = lockedDemoState ∧
    deleteShiftSelf lockedDemoState "2026-01" 1 "佐藤" "PTA" = lockedDemoState ∧
    setMinutesAdmin lockedDemoState "2026-01" 1 60 = lockedDemoState ∧
    setDayHeldAdmin lockedDemoState 2026 1 5 true = lockedDemoState ∧
    postBoardMessage lockedDemoState "2026-01" "佐藤" "連絡" 0 ≠ lockedDemoState := by
  decide

/-- C5 counterexample: the one-shot flag is per browser session, so a
second session in the same process re-triggers the sweep.  After session 1's
request has run it, the later request of session 2 runs it again: the
process-lifetime count reaches 2, refuting "no later request in that
process triggers the sweep again". -/
theorem cleanup_reruns_in_new_session :
    (runRequests (initialProcState boardDemoState) [(1, 0), (2, 0)]).sweeps = 2
      ∧ ¬ (runRequests (initialProcState boardDemoState) [(1, 0), (2, 0)]).sweeps ≤ 1 := by
  decide

theorem firstRequestCount_cons (done : List Nat) (sid : Nat) (rest : List Nat) :
    firstRequestCount done (sid :: rest)
      = if sid ∈ done then firstRequestCount done rest
        else 1 + firstRequestCount (sid :: done) rest :=
  rfl

theorem runRequests_sweeps (reqs : List (Nat × Int)) :
    ∀ (p : ProcState) (done : List Nat),
      (∀ sid, ((p.sessionDone.lookup sid).getD false = true ↔ sid ∈ done)) →
      (runRequests p reqs).sweeps = p.sweeps + firstRequestCount done (reqs.map Prod.fst) := by
  induction reqs with
  | nil =>
    intro p _ _
    show p.sweeps = p.sweeps + 0
    omega
  | cons r rest ih =>
    intro p done hinv
    show (runRequests (handleRequest p r.1 r.2) rest).sweeps
        = p.sweeps + firstRequestCount done (r.1 :: rest.map Prod.fst)
    by_cases h : r.1 ∈ done
    · have hflag : (p.sessionDone.lookup r.1).getD false = true := (hinv r.1).mpr h
      have hreq : handleRequest p r.1 r.2 = p := by
        unfold handleRequest
        rw [hflag]
        rfl
      rw [hreq, ih p done hinv, firstRequestCount_cons, if_pos h]
    · have hflag : (p.sessionDone.lookup r.1).getD false = false := by
        cases hb : (p.sessionDone.lookup r.1).getD false
        · rfl
        · exact absurd ((hinv r.1).mp hb) h
      have hreq : handleRequest p r.1 r.2
          = ⟨(r.1, true) :: p.sessionDone, cleanupOldBoardMessages p.app r.2, p.sweeps + 1⟩ := by
        unfold handleRequest
        rw [hflag]
        rfl
      have hinv2 : ∀ sid, ((((r.1, true) :: p.sessionDone).lookup sid).getD false = true
          ↔ sid ∈ r.1 :: done) := by
        intro sid
        by_cases hs : sid = r.1
        · subst hs
          simp [List.lookup]
        · have hb : (sid == r.1) = false := by
            simp [hs]
          simp only [List.lookup, hb]
          rw [hinv sid]
          simp [List.mem_cons, hs]
      rw [hreq, ih ⟨(r.1, true) :: p.sessionDone, cleanupOldBoardMessages p.app r.2, p.sweeps + 1⟩
            (r.1 :: done) hinv2, firstRequestCount_cons, if_neg h]
      show p.sweeps + 1 + firstRequestCount (r.1 :: done) (rest.map Prod.fst)
          = p.sweeps + (1 + firstRequestCount (r.1 :: done) (rest.map Prod.fst))
      omega

/-- C5 (amended): the `cleanup_done` flag lives in the per-session
`st.session_state`, so the retention sweep runs exactly on each session's
first request: over a whole process lifetime the number of executions is
the number of sessions that issued a request — at most once per session
(not per request), but once more for every fresh session in the same
process. -/
theorem cleanup_runs_once_per_session (app : AppState) (reqs : List (Nat × Int)) :
    (runRequests (initialProcState app) reqs).sweeps
      = firstRequestCount [] (reqs.map Prod.fst) := by
  have hinv : ∀ sid, (((initialProcState app).sessionDone.lookup sid).getD false = true
      ↔ sid ∈ ([] : List Nat)) := by
    intro sid
    simp [initialProcState, List.lookup]
  have h := runRequests_sweeps reqs (initialProcState app) [] hinv
  rw [h]
  show 0 + firstRequestCount [] (reqs.map Prod.fst) = _
  omega

/-!  Facts about the aggregation loop, towards the C7 theorem. -/

theorem totalFor_nil (k : String × String) : totalFor [] k = 0 :=
  rfl

theorem totalFor_cons (r : Row) (rs : List Row) (k : String × String) :
    totalFor (r :: rs) k = (if rowKey r = k then r.total else 0) + totalFor rs k := by
  unfold totalFor
  by_cases h : rowKey r = k
  · simp [List.filter_cons, h]
  · simp [List.filter_cons, h]

theorem sumMinutesFor_cons (e : Event) (es : List Event) (k : String × String) :
    sumMinutesFor (e :: es) k
      = (if eventKey e = k then eventMinutes e else 0) + sumMinutesFor es k := by
  unfold sumMinutesFor
  by_cases h : eventKey e = k
  · simp [List.filter_cons, h]
  · simp [List.filter_cons, h]

theorem totalFor_eq_zero (rows : List Row) (k : String × String)
    (h : k ∉ rows.map rowKey) : totalFor rows k = 0 := by
  induction rows with
  | nil => rfl
  | cons r rs ih =>
    rw [totalFor_cons]
    have h1 : rowKey r ≠ k := by
      intro hk
      exact h (by simp [hk])
    have h2 : k ∉ rs.map rowKey := by
      intro hk
      exact h (by simp [hk])
    rw [if_neg h1, ih h2]

theorem total_eq_totalFor (rows : List Row) (r : Row)
    (hnd : (rows.map rowKey).Nodup) (hr : r ∈ rows) :
    r.total = totalFor rows (rowKey r) := by
  induction rows with
  | nil => cases hr
  | cons x xs ih =>
    rw [totalFor_cons]
    rw [List.map_cons, List.nodup_cons] at hnd
    rcases List.mem_cons.mp hr with h | h
    · subst h
      rw [if_pos rfl, totalFor_eq_zero xs _ hnd.1]
      omega
    · have hxk : rowKey x ≠ rowKey r := by
        intro he
        exact hnd.1 (he ▸ List.mem_map_of_mem rowKey h)
      rw [if_neg hxk]
      simpa using ih hnd.2 h

theorem updateRow_map_rowKey (rows : List Row) (n a : String) (m : Nat) :
    (updateRow rows n a m).map rowKey
      = if (n, a) ∈ rows.map rowKey then rows.map rowKey
        else rows.map rowKey ++ [(n, a)] := by
  induction rows with
  | nil => simp [updateRow, rowKey]
  | cons r rs ih =>
    unfold updateRow
    by_cases h : r.name = n ∧ r.attr = a
    · rw [if_pos h]
      have hk : rowKey r = (n, a) := by
        unfold rowKey
        rw [h.1, h.2]
      have hmem : (n, a) ∈ (r :: rs).map rowKey := by
        rw [List.map_cons, hk]
        exact List.mem_cons_self _ _
      rw [if_pos hmem]
      rfl
    · rw [if_neg h]
      have hk : rowKey r ≠ (n, a) := by
        unfold rowKey
        intro he
        exact h ⟨congrArg Prod.fst he, congrArg Prod.snd he⟩
      by_cases hmem : (n, a) ∈ rs.map rowKey
      · simp [ih, hmem, hk, Ne.symm hk]
      · simp [ih, hmem, hk, Ne.symm hk]

theorem updateRow_nodup (rows : List Row) (n a : String) (m : Nat)
    (h : (rows.map rowKey).Nodup) : ((updateRow rows n a m).map rowKey).Nodup := by
  rw [updateRow_map_rowKey]
  by_cases hmem : (n, a) ∈ rows.map rowKey
  · rwa [if_pos hmem]
  · rw [if_neg hmem]
    simp [List.nodup_append, h, hmem]

theorem totalFor_updateRow (rows : List Row) (n a : String) (m : Nat) (k : String × String) :
    totalFor (updateRow rows n a m) k
      = totalFor rows k + (if k = (n, a) then m else 0) := by
  induction rows with
  | nil =>
    unfold updateRow
    rw [totalFor_cons]
    by_cases h : k = (n, a)
    · simp [rowKey, h, totalFor_nil]
    · have h2 : rowKey (⟨n, a, m⟩ : Row) ≠ k := by
        unfold rowKey
        intro he
        exact h he.symm
      simp [h2, h, totalFor_nil]
  | cons r rs ih =>
    unfold updateRow
    by_cases h : r.name = n ∧ r.attr = a
    · have hk : rowKey r = (n, a) := by
        unfold rowKey
        rw [h.1, h.2]
      have hk2 : rowKey (⟨r.name, r.attr, r.total + m⟩ : Row) = (n, a) := hk
      rw [if_pos h, totalFor_cons, totalFor_cons]
      by_cases hkk : k = (n, a)
      · simp [hkk, hk, hk2]
        omega
      · have h1 : rowKey (⟨r.name, r.attr, r.total + m⟩ : Row) ≠ k := by
          rw [hk2]
          intro he
          exact hkk he.symm
        have h2 : rowKey r ≠ k := by
          rw [hk]
          intro he
          exact hkk he.symm
        rw [if_neg h1, if_neg h2, if_neg hkk]
        omega
    · rw [if_neg h]
      rw [totalFor_cons, totalFor_cons, ih]
      omega

theorem updateRow_mem_rowKey (rows : List Row) (n a : String) (m : Nat)
    (k : String × String) :
    k ∈ (updateRow rows n a m).map rowKey ↔ k ∈ rows.map rowKey ∨ k = (n, a) := by
  rw [updateRow_map_rowKey]
  by_cases hmem : (n, a) ∈ rows.map rowKey
  · rw [if_pos hmem]
    constructor
    · exact Or.inl
    · rintro (h | h)
      · exact h
      · rw [h]
        exact hmem
  · rw [if_neg hmem]
    simp [List.mem_append]

theorem buildUserData_loop (events : List Event) :
    ∀ (acc : List Row),
      (∀ e ∈ events, e.name ≠ "") →
      (acc.map rowKey).Nodup →
      ((events.foldl activityStep acc).map rowKey).Nodup
        ∧ (∀ k, k ∈ (events.foldl activityStep acc).map rowKey
              ↔ k ∈ acc.map rowKey ∨ ∃ e ∈ events, eventKey e = k)
        ∧ (∀ k, totalFor (events.foldl activityStep acc) k
              = totalFor acc k + sumMinutesFor events k) := by
  induction events with
  | nil =>
    intro acc _ hnd
    refine ⟨hnd, fun k => ?_, fun k => ?_⟩
    · simp
    · simp [sumMinutesFor, totalFor]
  | cons e es ih =>
    intro acc hname hnd
    have hne : e.name ≠ "" := hname e (List.mem_cons_self e es)
    have hstep : activityStep acc e = updateRow acc e.name (eventAttr e) (eventMinutes e) := by
      unfold activityStep
      rw [if_neg hne]
    have hnd2 : ((activityStep acc e).map rowKey).Nodup := by
      rw [hstep]
      exact updateRow_nodup acc e.name (eventAttr e) (eventMinutes e) hnd
    have hname2 : ∀ x ∈ es, x.name ≠ "" := fun x hx => hname x (List.mem_cons_of_mem e hx)
    obtain ⟨ihnd, ihmem, ihtot⟩ := ih (activityStep acc e) hname2 hnd2
    refine ⟨?_, fun k => ?_, fun k => ?_⟩
    · rw [List.foldl_cons]
      exact ihnd
    · have h1 := ihmem k
      rw [hstep, updateRow_mem_rowKey] at h1
      rw [List.foldl_cons, hstep, h1]
      constructor
      · rintro ((h | h) | ⟨x, hx, hk⟩)
        · exact Or.inl h
        · exact Or.inr ⟨e, List.mem_cons_self e es, h.symm⟩
        · exact Or.inr ⟨x, List.mem_cons_of_mem e hx, hk⟩
      · rintro (h | ⟨x, hx, hk⟩)
        · exact Or.inl (Or.inl h)
        · rcases List.mem_cons.mp hx with he | he
          · subst he
            exact Or.inl (Or.inr hk.symm)
          · exact Or.inr ⟨x, he, hk⟩
    · rw [List.foldl_cons, ihtot k, hstep, totalFor_updateRow, sumMinutesFor_cons]
      by_cases hk : k = (e.name, eventAttr e)
      · have hk2 : eventKey e = k := hk.symm
        rw [if_pos hk, if_pos hk2]
        omega
      · have hk2 : eventKey e ≠ k := fun he => hk he.symm
        rw [if_neg hk, if_neg hk2]
        omega

/-- C7: for a locked month, `show_activity_record` groups the events by the
`(name, attribute)` pair, sums their minutes per group (each key of the
events appears as exactly one output row whose total is the summed minutes
of its events), and the rows come out sorted by total descending with ties
broken by name ascending. -/
theorem activityRecord_grouped_and_sorted (events : List Event)
    (hname : ∀ e ∈ events, e.name ≠ "") :
    List.Sorted rowLE (showActivityRecord true events)
      ∧ ((showActivityRecord true events).map rowKey).Nodup
      ∧ (∀ k, k ∈ (showActivityRecord true events).map rowKey
            ↔ ∃ e ∈ events, eventKey e = k)
      ∧ (∀ r ∈ showActivityRecord true events,
            r.total = sumMinutesFor events (rowKey r)) := by
  obtain ⟨hnd, hmem, htot⟩ :=
    buildUserData_loop events [] hname (by simp)
  have hperm : List.Perm (List.insertionSort rowLE (buildUserData events))
      (buildUserData events) :=
    List.perm_insertionSort rowLE _
  have hsa : showActivityRecord true events
      = List.insertionSort rowLE (buildUserData events) := rfl
  refine ⟨?_, ?_, fun k => ?_, fun r hr => ?_⟩
  · rw [hsa]
    exact List.sorted_insertionSort rowLE _
  · rw [hsa]
    exact ((hperm.map rowKey).nodup_iff).mpr hnd
  · rw [hsa, (hperm.map rowKey).mem_iff]
    have h1 := hmem k
    simpa using h1
  · rw [hsa] at hr
    have hrmem : r ∈ buildUserData events := hperm.mem_iff.mp hr
    have h2 := total_eq_totalFor (buildUserData events) r hnd hrmem
    have h3 : totalFor (buildUserData events) (rowKey r)
        = totalFor [] (rowKey r) + sumMinutesFor events (rowKey r) := htot (rowKey r)
    rw [h2, h3, totalFor_nil]
    omega

theorem activityRecord_grouped_and_sorted_witness :
    (∀ e ∈ [(⟨"2026-01-05", "2026-01", "鈴木", some "PTA", some 20⟩ : Event),
            ⟨"2026-01-06", "2026-01", "田中", none, none⟩,
            ⟨"2026-01-07", "2026-01", "鈴木", some "PTA", some 40⟩], e.name ≠ "")
      ∧ (List.Sorted rowLE (showActivityRecord true
            [⟨"2026-01-05", "2026-01", "鈴木", some "PTA", some 20⟩,
             ⟨"2026-01-06", "2026-01", "田中", none, none⟩,
             ⟨"2026-01-07", "2026-01", "鈴木", some "PTA", some 40⟩])
          ∧ ((showActivityRecord true
                [⟨"2026-01-05", "2026-01", "鈴木", some "PTA", some 20⟩,
                 ⟨"2026-01-06", "2026-01", "田中", none, none⟩,
                 ⟨"2026-01-07", "2026-01", "鈴木", some "PTA", some 40⟩]).map rowKey).Nodup
          ∧ (∀ k, k ∈ (showActivityRecord true
                [⟨"2026-01-05", "2026-01", "鈴木", some "PTA", some 20⟩,
                 ⟨"2026-01-06", "2026-01", "田中", none, none⟩,
                 ⟨"2026-01-07", "2026-01", "鈴木", some "PTA", some 40⟩]).map rowKey
              ↔ ∃ e ∈ [(⟨"2026-01-05", "2026-01", "鈴木", some "PTA", some 20⟩ : Event),
                       ⟨"2026-01-06", "2026-01", "田中", none, none⟩,
                       ⟨"2026-01-07", "2026-01", "鈴木", some "PTA", some 40⟩], eventKey e = k)
          ∧ (∀ r ∈ showActivityRecord true
                [⟨"2026-01-05", "2026-01", "鈴木", some "PTA", some 20⟩,
                 ⟨"2026-01-06", "2026-01", "田中", none, none⟩,
                 ⟨"2026-01-07", "2026-01", "鈴木", some "PTA", some 40⟩],
              r.total = sumMinutesFor
                [⟨"2026-01-05", "2026-01", "鈴木", some "PTA", some 20⟩,
                 ⟨"2026-01-06", "2026-01", "田中", none, none⟩,
                 ⟨"2026-01-07", "2026-01", "鈴木", some "PTA", some 40⟩] (rowKey r))) :=
  ⟨by decide,
   activityRecord_grouped_and_sorted
     [⟨"2026-01-05", "2026-01", "鈴木", some "PTA", some 20⟩,
      ⟨"2026-01-06", "2026-01", "田中", none, none⟩,
      ⟨"2026-01-07", "2026-01", "鈴木", some "PTA", some 40⟩] (by decide)⟩

/-!  The CSV fill steps, towards the C9 and C8 theorems. -/

theorem fillMinutesColumn_eq (events : List Event) :
    fillMinutesColumn events
      = events.map (fun e =>
          ⟨e.date, e.month_id, e.name, e.attr, some (e.minutes.getD MINUTES_PER_SHIFT)⟩) := by
  unfold fillMinutesColumn
  by_cases h : events.all (fun e => e.minutes.isNone) = true
  · rw [if_pos h]
    apply List.map_congr_left
    intro e he
    have hn : e.minutes = none :=
      Option.isNone_iff_eq_none.mp (List.all_eq_true.mp h e he)
    rw [hn]
    rfl
  · rw [if_neg h]

theorem fillAttrColumn_eq (events : List Event) :
    fillAttrColumn events
      = events.map (fun e =>
          ⟨e.date, e.month_id, e.name, some (e.attr.getD "その他"), e.minutes⟩) := by
  unfold fillAttrColumn
  by_cases h : events.all (fun e => e.attr.isNone) = true
  · rw [if_pos h]
    apply List.map_congr_left
    intro e he
    have hn : e.attr = none :=
      Option.isNone_iff_eq_none.mp (List.all_eq_true.mp h e he)
    rw [hn]
    rfl
  · rw [if_neg h]

theorem csvPrepare_eq_map (events : List Event) :
    csvPrepare events = events.map normalizeEvent := by
  unfold csvPrepare
  rw [fillMinutesColumn_eq, fillAttrColumn_eq, List.map_map]
  rfl

/-- C9: the CSV export treats a missing `attribute` as その他 and missing
`minutes` as `MINUTES_PER_SHIFT` (50) in every event before pivoting: the
column-wise fill steps equal the per-event defaulting map. -/
theorem csv_missing_field_defaults (events : List Event) :
    csvPrepare events
      = events.map (fun e =>
          ⟨e.date, e.month_id, e.name, some (e.attr.getD "その他"),
            some (e.minutes.getD MINUTES_PER_SHIFT)⟩) :=
  csvPrepare_eq_map events

theorem sumMin_filter_split (l : List Event) (p : Event → Bool) :
    ((l.filter p).map eventMinutes).sum
        + ((l.filter (fun e => !(p e))).map eventMinutes).sum
      = (l.map eventMinutes).sum := by
  induction l with
  | nil => rfl
  | cons e es ih =>
    by_cases h : p e = true
    · simp [List.filter_cons, h]
      omega
    · rw [Bool.not_eq_true] at h
      simp [List.filter_cons, h]
      omega

theorem filter_day_of_ne (l : List Event) (d d2 : Nat) (hneq : d2 ≠ d) :
    (l.filter (fun e => !(decide (dayOfDate e.date = d)))).filter
        (fun e => decide (dayOfDate e.date = d2))
      = l.filter (fun e => decide (dayOfDate e.date = d2)) := by
  rw [List.filter_filter]
  apply List.filter_congr
  intro e _
  by_cases hq : dayOfDate e.date = d2
  · simp [hq, hneq]
  · simp [hq]

theorem sum_over_days : ∀ (ds : List Nat) (l : List Event), ds.Nodup →
    (∀ e ∈ l, dayOfDate e.date ∈ ds) →
    (ds.map (fun d =>
        ((l.filter (fun e => decide (dayOfDate e.date = d))).map eventMinutes).sum)).sum
      = (l.map eventMinutes).sum := by
  intro ds
  induction ds with
  | nil =>
    intro l _ hcov
    cases l with
    | nil => rfl
    | cons e es => exact absurd (hcov e (List.mem_cons_self e es)) (List.not_mem_nil _)
  | cons d ds2 ih =>
    intro l hnd hcov
    rw [List.map_cons, List.sum_cons]
    have hnd2 : ds2.Nodup := (List.nodup_cons.mp hnd).2
    have hdnotin : d ∉ ds2 := (List.nodup_cons.mp hnd).1
    have hcong : ds2.map (fun d2 =>
          ((l.filter (fun e => decide (dayOfDate e.date = d2))).map eventMinutes).sum)
        = ds2.map (fun d2 =>
          (((l.filter (fun e => !(decide (dayOfDate e.date = d)))).filter
              (fun e => decide (dayOfDate e.date = d2))).map eventMinutes).sum) := by
      apply List.map_congr_left
      intro d2 hd2
      have hneq : d2 ≠ d := fun he => hdnotin (he ▸ hd2)
      rw [filter_day_of_ne l d d2 hneq]
    rw [hcong]
    have hcov2 : ∀ e ∈ l.filter (fun e => !(decide (dayOfDate e.date = d))),
        dayOfDate e.date ∈ ds2 := by
      intro e he
      have h1 := List.mem_filter.mp he
      have hne : dayOfDate e.date ≠ d := by
        have h2 := h1.2
        simp at h2
        exact h2
      rcases List.mem_cons.mp (hcov e h1.1) with h | h
      · exact absurd h hne
      · exact h
    rw [ih (l.filter (fun e => !(decide (dayOfDate e.date = d)))) hnd2 hcov2]
    have hsplit := sumMin_filter_split l (fun e => decide (dayOfDate e.date = d))
    omega

theorem sumMinutesFor_map_normalize (l : List Event) (k : String × String) :
    sumMinutesFor (l.map normalizeEvent) k = sumMinutesFor l k := by
  induction l with
  | nil => rfl
  | cons e es ih =>
    rw [List.map_cons, sumMinutesFor_cons, sumMinutesFor_cons, ih]
    have hkey : eventKey (normalizeEvent e) = eventKey e := rfl
    have hmin : eventMinutes (normalizeEvent e) = eventMinutes e := rfl
    rw [hkey, hmin]

theorem csvDays_nodup (l : List Event) : (csvDays l).Nodup := by
  unfold csvDays
  exact ((List.perm_insertionSort (fun a b => a ≤ b) _).nodup_iff).mpr
    (List.nodup_dedup _)

theorem mem_csvDays (l : List Event) (e : Event) (he : e ∈ l) :
    dayOfDate e.date ∈ csvDays l := by
  unfold csvDays
  rw [List.mem_insertionSort, List.mem_dedup]
  exact List.mem_map_of_mem _ he

/-- C8: in the generated CSV pivot, every `(name, attribute)` row's trailing
合計(分) value equals the sum of that row's per-day cells, and that common
value is the total minutes of the row's events in the month. -/
theorem csv_row_total_eq_cells_sum (events : List Event) (r : CsvRow)
    (hr : r ∈ generateAdminCsv events) :
    r.total = r.cells.sum
      ∧ r.total = sumMinutesFor events (r.name, r.attr) := by
  unfold generateAdminCsv csvPivot at hr
  obtain ⟨k, hk, hkr⟩ := List.mem_map.mp hr
  subst hkr
  refine ⟨rfl, ?_⟩
  show ((csvDays (csvPrepare events)).map (csvCell (csvPrepare events) k)).sum
      = sumMinutesFor events (k.1, k.2)
  have hketa : (k.1, k.2) = k := rfl
  rw [hketa]
  have hcell : ∀ d, csvCell (csvPrepare events) k d
      = ((((csvPrepare events).filter (fun e => decide (eventKey e = k))).filter
          (fun e => decide (dayOfDate e.date = d))).map eventMinutes).sum := by
    intro d
    unfold csvCell
    rw [List.filter_filter]
    have hcomm : (csvPrepare events).filter
          (fun e => decide (eventKey e = k) && decide (dayOfDate e.date = d))
        = (csvPrepare events).filter
          (fun e => decide (dayOfDate e.date = d) && decide (eventKey e = k)) := by
      apply List.filter_congr
      intro e _
      exact Bool.and_comm _ _
    rw [hcomm]
  have hmapc : (csvDays (csvPrepare events)).map (csvCell (csvPrepare events) k)
      = (csvDays (csvPrepare events)).map (fun d =>
          ((((csvPrepare events).filter (fun e => decide (eventKey e = k))).filter
              (fun e => decide (dayOfDate e.date = d))).map eventMinutes).sum) := by
    apply List.map_congr_left
    intro d _
    exact hcell d
  rw [hmapc]
  have hcov : ∀ e ∈ (csvPrepare events).filter (fun e => decide (eventKey e = k)),
      dayOfDate e.date ∈ csvDays (csvPrepare events) := by
    intro e he
    exact mem_csvDays (csvPrepare events) e (List.mem_filter.mp he).1
  rw [sum_over_days (csvDays (csvPrepare events))
        ((csvPrepare events).filter (fun e => decide (eventKey e = k)))
        (csvDays_nodup (csvPrepare events)) hcov]
  show sumMinutesFor (csvPrepare events) k = sumMinutesFor events k
  rw [csvPrepare_eq_map, sumMinutesFor_map_normalize]

theorem csv_row_total_eq_cells_sum_witness :
    ((⟨"a", "PTA", [20, 50], 70⟩ : CsvRow)
        ∈ generateAdminCsv
            [⟨"2026-01-05", "2026-01", "a", some "PTA", some 20⟩,
             ⟨"2026-01-06", "2026-01", "a", some "PTA", none⟩])
      ∧ ((⟨"a", "PTA", [20, 50], 70⟩ : CsvRow).total
            = (⟨"a", "PTA", [20, 50], 70⟩ : CsvRow).cells.sum
        ∧ (⟨"a", "PTA", [20, 50], 70⟩ : CsvRow).total
            = sumMinutesFor
                [⟨"2026-01-05", "2026-01", "a", some "PTA", some 20⟩,
                 ⟨"2026-01-06", "2026-01", "a", some "PTA", none⟩]
                ((⟨"a", "PTA", [20, 50], 70⟩ : CsvRow).name,
                 (⟨"a", "PTA", [20, 50], 70⟩ : CsvRow).attr)) :=
  ⟨by decide,
   csv_row_total_eq_cells_sum
     [⟨"2026-01-05", "2026-01", "a", some "PTA", some 20⟩,
      ⟨"2026-01-06", "2026-01", "a", some "PTA", none⟩]
     ⟨"a", "PTA", [20, 50], 70⟩ (by decide)⟩
